import Mathlib

/-!
# Verification of `bourbaki.ioutils.flexiblepersist`

A shallow embedding of the pipeline-composition engine in
`src/bourbaki/ioutils/flexiblepersist.py`: the codec registry
(`IORegistry`), the extension resolver (`pipeline_from_extension`), the
pipeline compiler (`compile_pipeline`) and the persistence facade
(`FlexiblePersist`, `_TextIOMethods`).

Python values flowing through a pipeline are modelled by `PyVal`
(opaque objects, text strings, byte strings); Python exceptions by
`PyErr`; every fallible Python function by `PyVal → Except PyErr PyVal`.
Python `dict`s are association lists with first-match lookup, and the
instance/class two-level `ChainMap` layering of `IORegistry` is the
`Layered` structure (a child map over an inherited parent map).
The concrete codec implementations (pickle, json, lzma, base64, ...)
are external collaborators; they enter the model as opaque function
parameters (`ExternalCodecs`) constrained only by round-trip contracts
where a theorem needs them.
-/

/-- A dynamically-typed Python value as it flows through a pipeline:
an opaque serializable object, a text string (`str`, as a list of
character codes) or a byte string (`bytes`). -/
inductive PyVal : Type where
  | obj (o : Nat) : PyVal
  | str (s : List Nat) : PyVal
  | bytes (b : List Nat) : PyVal
deriving DecidableEq, Repr

/-- The Python exception classes raised by the module. -/
inductive PyErr : Type where
  | keyError (msg : String) : PyErr
  | valueError (msg : String) : PyErr
  | typeError (msg : String) : PyErr
deriving DecidableEq, Repr

/-- A fallible Python function of one argument. -/
def Func : Type := PyVal → Except PyErr PyVal

def PyVal.isStr : PyVal → Bool
  | .str _ => true
  | _ => false

def PyVal.isBytes : PyVal → Bool
  | .bytes _ => true
  | _ => false

/-- A Python `dict`, as an association list; `insert` prepends, and
lookup takes the first match, so later insertions shadow earlier
entries exactly as `dict` assignment overwrites. -/
abbrev PyDict (α : Type) : Type := List (String × α)

def PyDict.find {α} (m : PyDict α) (k : String) : Option α :=
  match m with
  | [] => none
  | (k', v) :: rest => if k' = k then some v else PyDict.find rest k

def PyDict.contains {α} (m : PyDict α) (k : String) : Bool :=
  (m.find k).isSome

/-- The two-level `ChainMap({}, class_defaults)` layering used by
`IORegistry.__init__`: a mutable child map over an inherited parent
map.  Lookup and membership consult both levels (child first); writes
go only to the child. -/
structure Layered (α : Type) : Type where
  child : PyDict α
  parent : PyDict α

def Layered.find {α} (m : Layered α) (k : String) : Option α :=
  (m.child ++ m.parent).find k

def Layered.contains {α} (m : Layered α) (k : String) : Bool :=
  (m.child ++ m.parent).contains k

def Layered.insert {α} (m : Layered α) (k : String) (v : α) : Layered α :=
  ⟨(k, v) :: m.child, m.parent⟩

/-- Reverse lookup as built by `IORegistry._name_from_ext`
(`dict(map(reversed, dict_.items()))`): find the name registered with
the given extension.  Modelled as first match in child-then-parent
order, which agrees with the source whenever registered extensions are
distinct, as they are in every registry considered here. -/
def Layered.revFind (m : Layered String) (ext : String) : Option String :=
  (m.child ++ m.parent).findSome? fun kv =>
    if kv.2 = ext then some kv.1 else none

instance {ε α : Type} [DecidableEq ε] [DecidableEq α] : DecidableEq (Except ε α) := fun a b =>
  match a, b with
  | .ok x, .ok y =>
    if h : x = y then .isTrue (by rw [h])
    else .isFalse (by intro hc; cases hc; exact h rfl)
  | .ok _, .error _ => .isFalse (by intro hc; cases hc)
  | .error _, .ok _ => .isFalse (by intro hc; cases hc)
  | .error x, .error y =>
    if h : x = y then .isTrue (by rw [h])
    else .isFalse (by intro hc; cases hc; exact h rfl)

/-- `ext.lstrip('.')`. -/
def lstripDots (s : String) : String :=
  String.mk (s.toList.dropWhile (· = '.'))

/-- Python `s.split('.')` (single-character separator): split at every
dot, keeping empty segments, with `"".split('.') == ['']`. -/
def splitDotsAux : List Char → List (List Char)
  | [] => [[]]
  | c :: rest =>
    if c = '.' then [] :: splitDotsAux rest
    else
      match splitDotsAux rest with
      | [] => [[c]]
      | x :: xs => (c :: x) :: xs

def splitOnDots (s : String) : List String :=
  (splitDotsAux s.toList).map String.mk

/-- `'.' + extension.lstrip('.')`: extension normalization applied by
every registration method. -/
def normExt (s : String) : String :=
  "." ++ lstripDots s

/-- The codec registry `IORegistry`: per-kind name→function maps, the
extension tables, and the set of text encoders whose forward function
already returns `str`.  Each map is `ChainMap`-layered over the
class-level defaults. -/
structure Registry : Type where
  dumpers : Layered Func
  loaders : Layered Func
  fileDumpers : Layered Func
  fileLoaders : Layered Func
  textDumpers : Layered Func
  textLoaders : Layered Func
  textFileDumpers : Layered Func
  textFileLoaders : Layered Func
  compressors : Layered Func
  decompressors : Layered Func
  textEncoders : Layered Func
  textDecoders : Layered Func
  compressionExtensions : Layered String
  serializationExtensions : Layered String
  textExtensions : Layered String
  textEncodersReturnStr : List String

/-- `IORegistry._get_lambda` (with its default `allow_missing=False`):
dictionary lookup raising `ValueError` on a miss. -/
def get_lambda {α} (dict_ : Layered α) (key : String) (kwarg : String) :
    Except PyErr α :=
  match dict_.find key with
  | some v => .ok v
  | none => .error (.valueError (kwarg ++ " must be one of the registered keys; got " ++ key))

/-- `IORegistry._name_from_ext`: reverse lookup of a codec name from
its (normalized) extension, raising `ValueError` on a miss. -/
def name_from_ext (dict_ : Layered String) (ext : String) (kwarg : String) :
    Except PyErr String :=
  match dict_.revFind (normExt ext) with
  | some name => .ok name
  | none => .error (.valueError (kwarg ++ " must be one of the registered keys; got " ++ normExt ext))

/-- `IORegistry.serialization_from_extension`. -/
def serialization_from_extension (r : Registry) (ext : String) : Except PyErr String :=
  name_from_ext r.serializationExtensions ext "serialization extension"

/-- `IORegistry.compression_from_extension`. -/
def compression_from_extension (r : Registry) (ext : String) : Except PyErr String :=
  name_from_ext r.compressionExtensions ext "compression extension"

/-- `IORegistry.text_encoding_from_extension`. -/
def text_encoding_from_extension (r : Registry) (ext : String) : Except PyErr String :=
  name_from_ext r.textExtensions ext "text extension"

/-- `IORegistry.pipeline_from_extension`: parse a dotted extension
string into a `(serialization, compression, text_encoding)`
specification.  The two-segment case tries the second segment as a
compression extension first and falls back to a text-encoding
extension only when that lookup raises `ValueError`. -/
def pipeline_from_extension (r : Registry) (ext : String) :
    Except PyErr (String × Option String × Option String) :=
  match splitOnDots (lstripDots ext) with
  | [serExt] =>
    match serialization_from_extension r serExt with
    | .error e => .error e
    | .ok serialization => .ok (serialization, none, none)
  | [serExt, compOrTextExt] =>
    match serialization_from_extension r serExt with
    | .error e => .error e
    | .ok serialization =>
      match compression_from_extension r compOrTextExt with
      | .ok compression => .ok (serialization, some compression, none)
      | .error (.valueError _) =>
        match text_encoding_from_extension r compOrTextExt with
        | .error e => .error e
        | .ok textEncoding => .ok (serialization, none, some textEncoding)
      | .error e => .error e
  | [serExt, compExt, textExt] =>
    match serialization_from_extension r serExt with
    | .error e => .error e
    | .ok serialization =>
      match compression_from_extension r compExt with
      | .error e => .error e
      | .ok compression =>
        match text_encoding_from_extension r textExt with
        | .error e => .error e
        | .ok textEncoding => .ok (serialization, some compression, some textEncoding)
  | _ =>
    .error (.valueError ("Too many parts in extension " ++ ext ++ "; cannot determine serialization protocol"))

/-- The externally provided codec implementations named in the
class-level default tables of `IORegistry`.  Their implementations are
out of scope for the module (stage contract only), so they are opaque
parameters here. -/
structure ExternalCodecs : Type where
  pickleDumps : Func
  pickleLoads : Func
  pickleDump : Func
  pickleLoad : Func
  msgpackDumps : Func
  msgpackLoads : Func
  msgpackDump : Func
  msgpackLoad : Func
  jsonDumps : Func
  jsonLoads : Func
  jsonDump : Func
  jsonLoad : Func
  lzmaCompress : Func
  lzmaDecompress : Func
  lz4Compress : Func
  lz4Decompress : Func
  bz2Compress : Func
  bz2Decompress : Func
  gzipCompress : Func
  gzipDecompress : Func
  b16encode : Func
  b16decode : Func
  b32encode : Func
  b32decode : Func
  b64encode : Func
  b64decode : Func
  b85encode : Func
  b85decode : Func

/-- A fresh `IORegistry()` over the class-level default tables, with
the given external codec implementations.  `dill` is optional in the
source (`try: import dill`) and is modelled as not installed. -/
def defaultRegistry (x : ExternalCodecs) : Registry where
  dumpers := ⟨[], [("pickle", x.pickleDumps), ("msgpack", x.msgpackDumps)]⟩
  loaders := ⟨[], [("pickle", x.pickleLoads), ("msgpack", x.msgpackLoads)]⟩
  fileDumpers := ⟨[], [("pickle", x.pickleDump), ("msgpack", x.msgpackDump)]⟩
  fileLoaders := ⟨[], [("pickle", x.pickleLoad), ("msgpack", x.msgpackLoad)]⟩
  textDumpers := ⟨[], [("json", x.jsonDumps)]⟩
  textLoaders := ⟨[], [("json", x.jsonLoads)]⟩
  textFileDumpers := ⟨[], [("json", x.jsonDump)]⟩
  textFileLoaders := ⟨[], [("json", x.jsonLoad)]⟩
  compressors := ⟨[], [("lzma", x.lzmaCompress), ("lz4", x.lz4Compress),
                       ("bz2", x.bz2Compress), ("gzip", x.gzipCompress)]⟩
  decompressors := ⟨[], [("lzma", x.lzmaDecompress), ("lz4", x.lz4Decompress),
                         ("bz2", x.bz2Decompress), ("gzip", x.gzipDecompress)]⟩
  textEncoders := ⟨[], [("base16", x.b16encode), ("base32", x.b32encode),
                        ("base64", x.b64encode), ("base85", x.b85encode)]⟩
  textDecoders := ⟨[], [("base16", x.b16decode), ("base32", x.b32decode),
                        ("base64", x.b64decode), ("base85", x.b85decode)]⟩
  compressionExtensions := ⟨[], [("lzma", ".lzma"), ("lz4", ".lz4"),
                                 ("bz2", ".bz2"), ("gzip", ".gzip")]⟩
  serializationExtensions := ⟨[], [("json", ".json"), ("pickle", ".pkl"),
                                   ("msgpack", ".msgpack")]⟩
  textExtensions := ⟨[], [("base16", ".b16"), ("base32", ".b32"),
                          ("base64", ".b64"), ("base85", ".b85")]⟩
  textEncodersReturnStr := []

/-- Codec implementations all instantiated with the identity function;
used to evaluate registry-level operations, whose results never depend
on the codec functions themselves, on closed inputs. -/
def trivialCodecs : ExternalCodecs :=
  let f : Func := fun v => .ok v
  ⟨f, f, f, f, f, f, f, f, f, f, f, f, f, f, f, f, f, f, f, f, f, f, f, f, f, f, f, f⟩

/-- The registry's default str→bytes bridge
(`IORegistry.str_to_bytes_default`, i.e. `str.encode` with the
registry's character encoding).  The character codec is external; it
is modelled as the faithful code-unit map, a bijection between text
strings and their encoded byte strings, which is the contract the
source relies on.  Raises `TypeError` on non-`str` input as
`str.encode` does. -/
def str_to_bytes_default : Func := fun v =>
  match v with
  | .str s => .ok (.bytes s)
  | _ => .error (.typeError "descriptor requires a str object")

/-- The registry's default bytes→str bridge
(`IORegistry.bytes_to_str_default`, i.e. `bytes.decode` with the
registry's character encoding); inverse of `str_to_bytes_default`. -/
def bytes_to_str_default : Func := fun v =>
  match v with
  | .bytes b => .ok (.str b)
  | _ => .error (.typeError "descriptor requires a bytes object")

/-- `cytoolz.compose(*fs)`: right-to-left composition, the last
function in the list applied first, each step's exception
propagating. -/
def pycompose (fs : List Func) : Func := fun v =>
  fs.reverse.foldlM (fun acc f => f acc) v

/-- `IORegistry.is_binary_serialization`. -/
def is_binary_serialization (r : Registry) (serialization : String) :
    Except PyErr Bool :=
  if r.loaders.contains serialization then .ok true
  else if r.textLoaders.contains serialization then .ok false
  else .error (.keyError ("Unknown serialization protocol: " ++ serialization))

/-- `IORegistry.is_binary_text_encoding`. -/
def is_binary_text_encoding (r : Registry) (encoding : String) :
    Except PyErr Bool :=
  if encoding ∈ r.textEncodersReturnStr then .ok false
  else if r.textEncoders.contains encoding then .ok true
  else .error (.keyError ("Unknown text encoding protocol: " ++ encoding))

/-- `IORegistry.get_serializer_pairs`: the binary serializer's
string/file dump/load functions, in source order. -/
def get_serializer_pairs (r : Registry) (serialization : String) :
    Except PyErr (Func × Func × Func × Func) :=
  match get_lambda r.dumpers serialization "serialization" with
  | .error e => .error e
  | .ok toStr =>
    match get_lambda r.loaders serialization "serialization" with
    | .error e => .error e
    | .ok fromStr =>
      match get_lambda r.fileDumpers serialization "serialization" with
      | .error e => .error e
      | .ok toFile =>
        match get_lambda r.fileLoaders serialization "serialization" with
        | .error e => .error e
        | .ok fromFile => .ok (toStr, fromStr, toFile, fromFile)

/-- `IORegistry.get_text_serializer_pairs`. -/
def get_text_serializer_pairs (r : Registry) (serialization : String) :
    Except PyErr (Func × Func × Func × Func) :=
  match get_lambda r.textDumpers serialization "serialization" with
  | .error e => .error e
  | .ok toStr =>
    match get_lambda r.textLoaders serialization "serialization" with
    | .error e => .error e
    | .ok fromStr =>
      match get_lambda r.textFileDumpers serialization "serialization" with
      | .error e => .error e
      | .ok toFile =>
        match get_lambda r.textFileLoaders serialization "serialization" with
        | .error e => .error e
        | .ok fromFile => .ok (toStr, fromStr, toFile, fromFile)

/-- `IORegistry.get_compressor_pair`. -/
def get_compressor_pair (r : Registry) (compression : String) :
    Except PyErr (Func × Func) :=
  match get_lambda r.compressors compression "compression" with
  | .error e => .error e
  | .ok compress =>
    match get_lambda r.decompressors compression "compression" with
    | .error e => .error e
    | .ok decompress => .ok (compress, decompress)

/-- `IORegistry.get_text_encoder_pair`: the raw encoder/decoder pair,
with a binary (bytes-returning) encoder composed with the registry's
default bytes→str bridge on the forward path and the matching str→bytes
bridge on the inverse path. -/
def get_text_encoder_pair (r : Registry) (conversion : String) :
    Except PyErr (Func × Func) :=
  match get_lambda r.textEncoders conversion "conversion" with
  | .error e => .error e
  | .ok encoder =>
    match get_lambda r.textDecoders conversion "conversion" with
    | .error e => .error e
    | .ok decoder =>
      if conversion ∈ r.textEncodersReturnStr then .ok (encoder, decoder)
      else .ok (pycompose [bytes_to_str_default, encoder],
                pycompose [decoder, str_to_bytes_default])

/-- `StreamSerializer(to_str)`: write `to_str(obj)` as the whole file
content.  Files are modelled by their content, so the wrapper is the
string function itself. -/
def streamSerializerWrap (toStr : Func) : Func := toStr

/-- `StreamDeserializer(from_str)`: read the whole file content and
apply `from_str` to it. -/
def streamDeserializerWrap (fromStr : Func) : Func := fromStr

/-- The tuple returned by `IORegistry.compile_pipeline`:
`(to_str, from_str, to_file, from_file, file_mode)`.  `to_file` maps an
object to the file content it writes, `from_file` maps a file's content
to the loaded object. -/
structure Pipeline : Type where
  to_str : Func
  from_str : Func
  to_file : Func
  from_file : Func
  file_mode : String

/-- `IORegistry.compile_pipeline` (the uncached body): build the
forward transform list, its inverse list, and the file transforms from
a `(serialization, compression, text_encoding)` specification, then
compose them.  The keyword-option binding (`dump_kw` etc., a `partial`
application at compile time) is omitted: every claim under proof is
about the `None`-options case, where the source leaves the functions
unchanged. -/
def compile_pipeline (r : Registry) (serialization : String)
    (compression : Option String) (text_encoding : Option String) :
    Except PyErr Pipeline :=
  match is_binary_serialization r serialization with
  | .error e => .error e
  | .ok binary =>
    match (if binary then get_serializer_pairs r serialization
           else get_text_serializer_pairs r serialization) with
    | .error e => .error e
    | .ok (to_str, from_str, to_file, from_file) =>
      let file_mode : String := if binary then "b" else ""
      let to_str_fs : List Func := [to_str]
      let from_str_fs : List Func := [from_str]
      let to_file_fs : Option (List Func) := some [to_file]
      let from_file_fs : Option (List Func) := some [from_file]
      let afterComp :
          Except PyErr (List Func × List Func × Option (List Func) × Option (List Func) × String) :=
        match compression with
        | none => .ok (to_str_fs, from_str_fs, to_file_fs, from_file_fs, file_mode)
        | some c =>
          match get_compressor_pair r c with
          | .error e => .error e
          | .ok (compress, decompress) =>
            let to_str_fs := if binary then to_str_fs else to_str_fs ++ [str_to_bytes_default]
            let from_str_fs := if binary then from_str_fs else from_str_fs ++ [bytes_to_str_default]
            .ok (to_str_fs ++ [compress], from_str_fs ++ [decompress], none, none, "b")
      match afterComp with
      | .error e => .error e
      | .ok (to_str_fs, from_str_fs, to_file_fs, from_file_fs, file_mode) =>
        let afterText :
            Except PyErr (List Func × List Func × Option (List Func) × Option (List Func) × String) :=
          match text_encoding with
          | none => .ok (to_str_fs, from_str_fs, to_file_fs, from_file_fs, file_mode)
          | some t =>
            let to_str_fs := if !binary && compression = none
                             then to_str_fs ++ [str_to_bytes_default] else to_str_fs
            let from_str_fs := if !binary && compression = none
                               then from_str_fs ++ [bytes_to_str_default] else from_str_fs
            match get_text_encoder_pair r t with
            | .error e => .error e
            | .ok (encode, decode) =>
              .ok (to_str_fs ++ [encode], from_str_fs ++ [decode], none, none, "")
        match afterText with
        | .error e => .error e
        | .ok (to_str_fs, from_str_fs, to_file_fs, from_file_fs, file_mode) =>
          let to_str' := pycompose to_str_fs.reverse
          let from_str' := pycompose from_str_fs
          match to_file_fs, from_file_fs with
          | some tf, some ff =>
            .ok ⟨to_str', from_str', pycompose tf.reverse, pycompose ff, file_mode⟩
          | _, _ =>
            .ok ⟨to_str', from_str', streamSerializerWrap to_str',
                 streamDeserializerWrap from_str', file_mode⟩

/-- The memoization cache of `compile_pipeline` (`@lru_cache(None)`),
keyed by the specification. -/
abbrev PipelineCache : Type :=
  List ((String × Option String × Option String) × Pipeline)

def cacheLookup (cache : PipelineCache)
    (key : String × Option String × Option String) : Option Pipeline :=
  match cache with
  | [] => none
  | (k, p) :: rest => if k = key then some p else cacheLookup rest key

/-- `compile_pipeline` as called through its `lru_cache` wrapper: a
cache hit returns the memoized pipeline; on a miss the body runs, a
successful result is inserted, and a raised exception leaves the cache
unchanged (`functools.lru_cache` does not cache exceptions). -/
def compile_pipeline_cached (r : Registry) (cache : PipelineCache)
    (serialization : String) (compression : Option String)
    (text_encoding : Option String) :
    Except PyErr Pipeline × PipelineCache :=
  let key := (serialization, compression, text_encoding)
  match cacheLookup cache key with
  | some p => (.ok p, cache)
  | none =>
    match compile_pipeline r serialization compression text_encoding with
    | .ok p => (.ok p, (key, p) :: cache)
    | .error e => (.error e, cache)

/-- The extension-resolution algorithm as the specification words it
(spec §4.2), for comparison with `pipeline_from_extension`: strip the
leading dots, split on `.`; 1 segment → serializer only; 2 segments →
serializer, then the second segment tried as a compression extension
first and as a text-encoding extension only if that lookup fails,
failing when both fail; 3 segments → serializer, compression,
text-encoding positionally and independently; 4 or more segments →
failure. -/
def spec_resolve (r : Registry) (ext : String) :
    Except PyErr (String × Option String × Option String) :=
  let segments := splitOnDots (lstripDots ext)
  if segments.length = 1 then
    match serialization_from_extension r (segments.getD 0 "") with
    | .error e => .error e
    | .ok s => .ok (s, none, none)
  else if segments.length = 2 then
    match serialization_from_extension r (segments.getD 0 "") with
    | .error e => .error e
    | .ok s =>
      match compression_from_extension r (segments.getD 1 "") with
      | .ok c => .ok (s, some c, none)
      | .error (.valueError _) =>
        match text_encoding_from_extension r (segments.getD 1 "") with
        | .error e => .error e
        | .ok t => .ok (s, none, some t)
      | .error e => .error e
  else if segments.length = 3 then
    match serialization_from_extension r (segments.getD 0 "") with
    | .error e => .error e
    | .ok s =>
      match compression_from_extension r (segments.getD 1 "") with
      | .error e => .error e
      | .ok c =>
        match text_encoding_from_extension r (segments.getD 2 "") with
        | .error e => .error e
        | .ok t => .ok (s, some c, some t)
  else
    .error (.valueError ("Too many parts in extension " ++ ext ++ "; cannot determine serialization protocol"))

/-- An argument passed to a registration method: omitted (`None`,
the declared default), or a provided object that either is or is not
callable. -/
inductive PyArg : Type where
  | none : PyArg
  | given (callable : Bool) (f : Func) : PyArg

/-- Python's `callable(...)` on a registration argument; `None` is not
callable. -/
def PyArg.isCallable : PyArg → Bool
  | .none => false
  | .given c _ => c

/-- The function object a registration argument stands for: calling an
omitted or non-callable argument raises `TypeError`. -/
def PyArg.func : PyArg → Func
  | .none => fun _ => .error (.typeError "NoneType object is not callable")
  | .given c f => if c then f else fun _ => .error (.typeError "object is not callable")

/-- The `callable(f)` validation loop body in the registration
methods: raises `TypeError` if the argument under the given alias is
not callable. -/
def checkCallable (alias_ : String) (arg : PyArg) : Except PyErr Unit :=
  if arg.isCallable then .ok ()
  else .error (.typeError (alias_ ++ " must be callable"))

/-- Python `x or fallback` on a registration argument: a provided
object (truthy, as Python objects are by default) is taken as-is; an
omitted argument (`None`, falsy) selects the fallback. -/
def PyArg.orElse (a : PyArg) (fallback : Func) : Func :=
  match a with
  | .none => fallback
  | .given _ _ => a.func

/-- A wrapper (`StrSerializer`, `StreamSerializer` or
`StrDeserializer`) built around an omitted argument — the only case in
which those three fallbacks are evaluated; invoking it calls `None`
and raises `TypeError`. -/
def wrapNone : Func := fun _ => .error (.typeError "NoneType object is not callable")

/-- `IORegistry.register_serializer`.  In source order: pick the
binary or text map quadruple, raise `KeyError` if the name is already
present in the (layered) loaders or dumpers, then check callability of
`serializer`, `stream_serializer`, `deserializer` and — the source
checks `stream_serializer` a second time under the
`stream_deserializer` alias — never `stream_deserializer` itself;
finally store each argument through its `x or wrapper` fallback
(`serializer or StrSerializer(serializer, binary)` and the like for
the three checked arguments, whose fallbacks wrap `None`; and
`stream_deserializer or StreamDeserializer(deserializer)`, whose
fallback wraps the given deserializer and is reached whenever
`stream_deserializer` is omitted) and the normalized extension. -/
def register_serializer (r : Registry) (name : String) (extension : String)
    (serializer deserializer stream_serializer stream_deserializer : PyArg)
    (binary : Bool) : Except PyErr Registry :=
  let loaders := if binary then r.loaders else r.textLoaders
  let dumpers := if binary then r.dumpers else r.textDumpers
  if loaders.contains name || dumpers.contains name then
    .error (.keyError (name ++ " is already registered; choose a different name"))
  else
    match checkCallable "serializer" serializer with
    | .error e => .error e
    | .ok _ =>
      match checkCallable "stream_serializer" stream_serializer with
      | .error e => .error e
      | .ok _ =>
        match checkCallable "deserializer" deserializer with
        | .error e => .error e
        | .ok _ =>
          match checkCallable "stream_deserializer" stream_serializer with
          | .error e => .error e
          | .ok _ =>
            let ser := serializer.orElse wrapNone
            let stream_ser := stream_serializer.orElse wrapNone
            let deser := deserializer.orElse wrapNone
            let stream_deser := stream_deserializer.orElse
              (streamDeserializerWrap deserializer.func)
            if binary then
              .ok { r with
                dumpers := r.dumpers.insert name ser
                loaders := r.loaders.insert name deser
                fileDumpers := r.fileDumpers.insert name stream_ser
                fileLoaders := r.fileLoaders.insert name stream_deser
                serializationExtensions := r.serializationExtensions.insert name (normExt extension) }
            else
              .ok { r with
                textDumpers := r.textDumpers.insert name ser
                textLoaders := r.textLoaders.insert name deser
                textFileDumpers := r.textFileDumpers.insert name stream_ser
                textFileLoaders := r.textFileLoaders.insert name stream_deser
                serializationExtensions := r.serializationExtensions.insert name (normExt extension) }

/-- `FlexiblePersist._get_extension`: the canonical extension of a
facade — the serializer's extension, then the compression extension if
compression is set, then the text-encoding extension if `text=True` or
the facade was built with `always_use_text_encoding` (as
`from_extension` does whenever a text encoding was resolved).  Direct
`dict[...]` indexing raises `KeyError` on a missing entry. -/
def get_extension (r : Registry) (serialization : String)
    (compression text_encoding : Option String)
    (alwaysUseTextEncoding : Bool) (text : Bool) : Except PyErr String :=
  match r.serializationExtensions.find serialization with
  | none => .error (.keyError serialization)
  | some e0 =>
    let afterComp : Except PyErr String :=
      match compression with
      | none => .ok e0
      | some c =>
        match r.compressionExtensions.find c with
        | none => .error (.keyError c)
        | some ce => .ok (e0 ++ ce)
    match afterComp with
    | .error e => .error e
    | .ok e1 =>
      if text || alwaysUseTextEncoding then
        match text_encoding with
        | none => .error (.keyError "None")
        | some t =>
          match r.textExtensions.find t with
          | none => .error (.keyError t)
          | some te => .ok (e1 ++ te)
      else .ok e1

/-- Whether the facade closed the file handle involved in an
operation, and what happened: the outcome of one facade I/O call.
`closed` reports the disposition of the handle the operation used
(the internally opened one for a path target, the caller's stream
otherwise). -/
structure IOOutcome (α : Type) : Type where
  result : Except PyErr α
  closed : Bool
deriving Repr

/-- `FlexiblePersist.dump` with a path target:
`with open(file, 'w'+mode) as f: self._dump(obj, f)` — the `with`
statement closes the handle on success and on error alike.  The
successful result is the file content written. -/
def FlexiblePersist_dump_path (toFile : Func) (obj : PyVal) : IOOutcome PyVal :=
  match toFile obj with
  | .ok content => ⟨.ok content, true⟩
  | .error e => ⟨.error e, true⟩

/-- `FlexiblePersist.dump` with a caller-supplied stream:
`self._dump(obj, file)` — the facade never closes the stream. -/
def FlexiblePersist_dump_stream (toFile : Func) (obj : PyVal) : IOOutcome PyVal :=
  ⟨toFile obj, false⟩

/-- `FlexiblePersist.load` with a path target:
`with open(file, 'r'+mode) as f: return self._load(f)`. -/
def FlexiblePersist_load_path (fromFile : Func) (content : PyVal) : IOOutcome PyVal :=
  match fromFile content with
  | .ok obj => ⟨.ok obj, true⟩
  | .error e => ⟨.error e, true⟩

/-- `FlexiblePersist.load` with a caller-supplied stream. -/
def FlexiblePersist_load_stream (fromFile : Func) (content : PyVal) : IOOutcome PyVal :=
  ⟨fromFile content, false⟩

/-- The write loop of `_TextIOMethods.dump_stream_to_file`: encode and
write one line per item (`lines = map(encode, iterable)` is lazy, so
each encoding error surfaces at its write).  Returns the lines written
on success. -/
def writeLines (encode : Func) (items : List PyVal) : Except PyErr (List PyVal) :=
  match items with
  | [] => .ok []
  | x :: rest =>
    match encode x with
    | .error e => .error e
    | .ok line =>
      match writeLines encode rest with
      | .error e => .error e
      | .ok lines => .ok (line :: lines)

/-- `_TextIOMethods.dump_stream_to_file` with a path target: the file
is opened with `open(...)`, written in a plain `for` loop, and
`file.close()` runs only after the loop completes — an exception
raised while encoding or writing skips it, leaving the handle open. -/
def dump_stream_to_file_path (encode : Func) (items : List PyVal) :
    IOOutcome (List PyVal) :=
  match writeLines encode items with
  | .ok lines => ⟨.ok lines, true⟩
  | .error e => ⟨.error e, false⟩

/-- `_TextIOMethods.dump_stream_to_file` with a caller-supplied
stream: `close` stays `False`, so the stream is never closed by the
facade, not even on success. -/
def dump_stream_to_file_stream (encode : Func) (items : List PyVal) :
    IOOutcome (List PyVal) :=
  ⟨writeLines encode items, false⟩

/-- The read loop of `_TextIOMethods.load_stream_from_file`: decode
each line in order, propagating the first decoding error. -/
def readLines (decode : Func) (lines : List PyVal) : Except PyErr (List PyVal) :=
  match lines with
  | [] => .ok []
  | l :: rest =>
    match decode l with
    | .error e => .error e
    | .ok x =>
      match readLines decode rest with
      | .error e => .error e
      | .ok xs => .ok (x :: xs)

/-- `_TextIOMethods.load_stream_from_file` with a path target, run to
exhaustion by its consumer: `file.close()` runs only after the `for`
loop over the file ends, so a decoding error leaves the handle open. -/
def load_stream_from_file_path (decode : Func) (lines : List PyVal) :
    IOOutcome (List PyVal) :=
  match readLines decode lines with
  | .ok xs => ⟨.ok xs, true⟩
  | .error e => ⟨.error e, false⟩

/-- `_TextIOMethods.load_stream_from_file` with a caller-supplied
stream: the facade never closes it. -/
def load_stream_from_file_stream (decode : Func) (lines : List PyVal) :
    IOOutcome (List PyVal) :=
  ⟨readLines decode lines, false⟩

/-- The character for a decimal digit, as produced by Python
`str(i)`. -/
def digitChar (d : Nat) : Char :=
  match d with
  | 0 => '0' | 1 => '1' | 2 => '2' | 3 => '3' | 4 => '4'
  | 5 => '5' | 6 => '6' | 7 => '7' | 8 => '8' | _ => '9'

/-- The value of a decimal digit character, as consumed by Python
`int(s)` on a digit string. -/
def charDigitVal (c : Char) : Nat :=
  match c with
  | '0' => 0 | '1' => 1 | '2' => 2 | '3' => 3 | '4' => 4
  | '5' => 5 | '6' => 6 | '7' => 7 | '8' => 8 | '9' => 9
  | _ => 0

/-- Python `str(n)` for a natural number: decimal rendering
(fuel-based so that it reduces structurally; `n + 1` digits always
suffice). -/
def renderNatAux : Nat → Nat → List Char
  | 0, _ => []
  | fuel + 1, n =>
    if n < 10 then [digitChar n]
    else renderNatAux fuel (n / 10) ++ [digitChar (n % 10)]

def renderNat (n : Nat) : List Char := renderNatAux (n + 1) n

/-- `s.rjust(w, '0')`: left-pad with zeros to width `w`. -/
def rjustZeros (w : Nat) (s : List Char) : List Char :=
  List.replicate (w - s.length) '0' ++ s

/-- Python `int(s)` on a decimal digit string. -/
def parseNat (l : List Char) : Nat :=
  l.foldl (fun acc c => 10 * acc + charDigitVal c) 0

/-- A directory, modelled as the files it holds: name → content, in
write order.  Strings are modelled by their character lists. -/
abbrev DirFiles : Type := List (List Char × PyVal)

def dirLookup (contents : DirFiles) (name : List Char) : Option PyVal :=
  match contents with
  | [] => none
  | (n, c) :: rest => if n = name then some c else dirLookup rest name

/-- The filename template `prefix + '{}' + ext` of
`FlexiblePersist._dump_stream_to_dir`, applied to a key. -/
def streamFileName (pre key ext : List Char) : List Char :=
  pre ++ key ++ ext

/-- `FlexiblePersist.dump_stream_to_dir` into a fresh directory:
enumerate the items, name each file
`prefix + str(i).rjust(ndigits, '0') + ext`, and write the content
`self._dump` produces for it.  Returns the directory contents. -/
def dumpDirAux (toFile : Func) (pre ext : List Char) (ndigits : Nat) :
    Nat → List PyVal → Except PyErr DirFiles
  | _, [] => .ok []
  | i, x :: rest =>
    match toFile x with
    | .error e => .error e
    | .ok c =>
      match dumpDirAux toFile pre ext ndigits (i + 1) rest with
      | .error e => .error e
      | .ok files =>
        .ok ((streamFileName pre (rjustZeros ndigits (renderNat i)) ext, c) :: files)

def dump_stream_to_dir (toFile : Func) (xs : List PyVal) (pre ext : List Char)
    (ndigits : Nat) : Except PyErr DirFiles :=
  dumpDirAux toFile pre ext ndigits 0 xs

/-- The filename match of `FlexiblePersist.load_stream_from_dir`:
`re.fullmatch(re.escape(prefix) + "([0-9]+)" + re.escape(ext), name)`,
returning the digit group.  Faithful to the regex whenever `ext` does
not begin with a digit, which holds for every canonical extension
(they begin with a dot). -/
def matchIndexedName (pre ext name : List Char) : Option (List Char) :=
  if pre.isPrefixOf name then
    let rest := name.drop pre.length
    let key := rest.takeWhile Char.isDigit
    if key.isEmpty then none
    else if rest.dropWhile Char.isDigit = ext then some key else none
  else none

def loadDirAux (fromFile : Func) (contents : DirFiles) :
    List (Nat × List Char) → Except PyErr (List PyVal)
  | [] => .ok []
  | (_, name) :: rest =>
    match dirLookup contents name with
    | none => .error (.keyError (String.mk name))
    | some c =>
      match fromFile c with
      | .error e => .error e
      | .ok x =>
        match loadDirAux fromFile contents rest with
        | .error e => .error e
        | .ok xs => .ok (x :: xs)

/-- `FlexiblePersist.load_stream_from_dir`: filter the directory
listing (whose order the filesystem chooses) down to names matching
`prefix<digits><ext>`, parse each digit group with `int`, sort by the
parsed index (`sorted` with `itemgetter(0)`, modelled by the stable
insertion sort), then load each file in that order with
`self.load(..., auto_extension=False)`, consumed to exhaustion. -/
def load_stream_from_dir (fromFile : Func) (listing : List (List Char))
    (contents : DirFiles) (pre ext : List Char) : Except PyErr (List PyVal) :=
  let ms := listing.filterMap fun name =>
    (matchIndexedName pre ext name).map fun k => (k, name)
  let fs := ms.map fun kv => (parseNat kv.1, kv.2)
  let sorted := List.insertionSort (fun a b : Nat × List Char => a.1 ≤ b.1) fs
  loadDirAux fromFile contents sorted

/-- `applyChain fs x`: apply the functions of `fs` left to right,
propagating exceptions — the forward reading of a composed transform
list. -/
def applyChain (fs : List Func) (x : PyVal) : Except PyErr PyVal :=
  match fs with
  | [] => .ok x
  | f :: rest =>
    match f x with
    | .error e => .error e
    | .ok y => applyChain rest y

/-- One stage and its inverse agree at a point: the forward function
sends `x` to `y` and the inverse sends `y` back to `x`. -/
def Inverts (f g : Func) (x y : PyVal) : Prop :=
  f x = .ok y ∧ g y = .ok x

/-- A forward transform list and its parallel inverse list invert each
other along the trajectory from `x` to `z`: stage `i` of `fs` maps the
`i`-th intermediate value forward while stage `i` of `gs` maps it
back.  `compile_pipeline` builds exactly such parallel lists. -/
inductive ChainInv : List Func → List Func → PyVal → PyVal → Prop where
  | nil (x : PyVal) : ChainInv [] [] x x
  | cons {f g : Func} {fs gs : List Func} {x y z : PyVal} :
      Inverts f g x y → ChainInv fs gs y z → ChainInv (f :: fs) (g :: gs) x z

/-- The spec's stage contract for a bytes→bytes codec pair
(a compressor, or a binary text encoder): `inverse(forward(x)) == x`,
with both directions staying in `bytes`. -/
def BytesRoundtrip (f g : Func) : Prop :=
  ∀ b : List Nat, ∃ b2 : List Nat,
    f (.bytes b) = .ok (.bytes b2) ∧ g (.bytes b2) = .ok (.bytes b)

/-- The stage contract for a bytes→str codec pair (a text encoder
whose forward function returns `str`): `inverse(forward(x)) == x`. -/
def BytesToStrRoundtrip (f g : Func) : Prop :=
  ∀ b : List Nat, ∃ s : List Nat,
    f (.bytes b) = .ok (.str s) ∧ g (.str s) = .ok (.bytes b)

/-- The serializer's stage contract at one value: the registered
string dumper/loader pair round-trips `x`, with the dumper returning
`bytes` when the serializer is registered binary and `str`
otherwise. -/
def SerializerRoundtripAt (r : Registry) (s : String) (x : PyVal) : Prop :=
  ∀ (binary : Bool) (pr : Func × Func × Func × Func),
    is_binary_serialization r s = .ok binary →
    (if binary then get_serializer_pairs r s else get_text_serializer_pairs r s) = .ok pr →
    ∃ y, pr.1 x = .ok y ∧ (if binary then y.isBytes else y.isStr) = true ∧
      pr.2.1 y = .ok x

/-- The registered compressor pair satisfies its stage contract. -/
def CompressorRoundtrip (r : Registry) (c : String) : Prop :=
  ∀ cp : Func × Func, get_compressor_pair r c = .ok cp → BytesRoundtrip cp.1 cp.2

/-- The registered raw text-encoder pair satisfies its stage
contract, in the form matching how it was registered: a
str-returning encoder round-trips bytes through `str`, a binary one
through `bytes`. -/
def TextEncoderRoundtrip (r : Registry) (t : String) : Prop :=
  ∀ enc dec : Func,
    r.textEncoders.find t = some enc → r.textDecoders.find t = some dec →
    if t ∈ r.textEncodersReturnStr then BytesToStrRoundtrip enc dec
    else BytesRoundtrip enc dec

theorem applyChain_append (l1 l2 : List Func) (x : PyVal) :
    applyChain (l1 ++ l2) x =
      (match applyChain l1 x with
       | .ok y => applyChain l2 y
       | .error e => .error e) := by
  induction l1 generalizing x with
  | nil => rfl
  | cons f rest ih =>
    simp only [List.cons_append, applyChain]
    cases f x <;> simp [ih]

theorem except_bind_ok {ε α β : Type} (a : α) (k : α → Except ε β) :
    (Except.ok a >>= k) = k a := rfl

theorem except_bind_error {ε α β : Type} (e : ε) (k : α → Except ε β) :
    ((Except.error e : Except ε α) >>= k) = .error e := rfl

theorem foldlM_eq_applyChain (l : List Func) (x : PyVal) :
    List.foldlM (fun acc f => f acc) x l = applyChain l x := by
  induction l generalizing x with
  | nil => rfl
  | cons f rest ih =>
    simp only [List.foldlM_cons, applyChain]
    cases hfx : f x with
    | error e => rfl
    | ok y => exact ih y

theorem pycompose_eq (fs : List Func) (x : PyVal) :
    pycompose fs x = applyChain fs.reverse x :=
  foldlM_eq_applyChain fs.reverse x

theorem chainInv_run {fs gs : List Func} {x z : PyVal} (h : ChainInv fs gs x z) :
    applyChain fs x = .ok z ∧ applyChain gs.reverse z = .ok x := by
  induction h with
  | nil x => exact ⟨rfl, rfl⟩
  | cons hfg _ ih =>
    obtain ⟨h1, h2⟩ := hfg
    obtain ⟨ih1, ih2⟩ := ih
    refine ⟨by simp [applyChain, h1, ih1], ?_⟩
    rw [List.reverse_cons, applyChain_append, ih2]
    simp [applyChain, h2]

/-- **C2** (corrected claim, counterexample): resolving
`".json.base64"` does not yield `(json, none, base64)` — the
registered extension of the base64 text encoder is `".b64"`, so the
lookup raises `ValueError`. -/
theorem resolve_json_base64_counterexample :
    pipeline_from_extension (defaultRegistry trivialCodecs) ".json.base64" ≠
      .ok ("json", none, some "base64") := by
  decide

/-- **C2** (amended): resolving `".json.lz4"` yields
`(serialization="json", compression="lz4", text_encoding=None)`;
resolving `".json.b64"` — the registered base64 extension — yields
`(serialization="json", compression=None, text_encoding="base64")`,
while `".json.base64"` fails with `ValueError`. -/
theorem resolve_json_lz4_and_json_b64 (x : ExternalCodecs) :
    pipeline_from_extension (defaultRegistry x) ".json.lz4" =
      .ok ("json", some "lz4", none) ∧
    pipeline_from_extension (defaultRegistry x) ".json.b64" =
      .ok ("json", none, some "base64") ∧
    pipeline_from_extension (defaultRegistry x) ".json.base64" =
      .error (.valueError "text extension must be one of the registered keys; got .base64") :=
  ⟨rfl, rfl, rfl⟩

/-- **C5**: `pipeline_from_extension` implements exactly the
segment-count dispatch the specification describes (`spec_resolve`):
one segment resolves a serializer only; two segments try the second as
a compression extension first and as a text-encoding extension only if
that fails, failing when both fail; three segments resolve serializer,
compression and text encoding positionally; four or more segments
always fail. -/
theorem pipeline_from_extension_matches_spec (r : Registry) (ext : String)
    (v : String × Option String × Option String) :
    pipeline_from_extension r ext = .ok v ↔ spec_resolve r ext = .ok v := by
  unfold pipeline_from_extension spec_resolve
  rcases h : splitOnDots (lstripDots ext) with _ | ⟨a, _ | ⟨b, _ | ⟨c, _ | ⟨d, tl⟩⟩⟩⟩
  · simp
  · simp only [h, List.length_cons, List.length_nil, List.getD_cons_zero,
      List.getD_cons_succ]
    try norm_num
  · simp only [h, List.length_cons, List.length_nil, List.getD_cons_zero,
      List.getD_cons_succ]
    try norm_num
  · simp only [h, List.length_cons, List.length_nil, List.getD_cons_zero,
      List.getD_cons_succ]
    try norm_num
  · simp only [h, List.length_cons, List.length_nil]
    have h1 : ¬ (tl.length + 1 + 1 + 1 + 1 = 1) := by omega
    have h2 : ¬ (tl.length + 1 + 1 + 1 + 1 = 2) := by omega
    have h3 : ¬ (tl.length + 1 + 1 + 1 + 1 = 3) := by omega
    rw [if_neg h1, if_neg h2, if_neg h3]

/-- **C3**: for every pipeline specification `(S, C, T)` over the
default registry's codecs, resolving the canonical extension —
serializer extension, then compression extension if `C` is set, then
text-encoding extension if `T` is set, in that fixed order, as
`FlexiblePersist._get_extension` builds it for a facade that
materializes its text encoding — yields back exactly `(S, C, T)`. -/
theorem canonical_extension_roundtrip (x : ExternalCodecs)
    (s : String) (c t : Option String)
    (hs : s ∈ ["json", "pickle", "msgpack"])
    (hc : c ∈ [none, some "lzma", some "lz4", some "bz2", some "gzip"])
    (ht : t ∈ [none, some "base16", some "base32", some "base64", some "base85"]) :
    ∃ e, get_extension (defaultRegistry x) s c t t.isSome false = .ok e ∧
      pipeline_from_extension (defaultRegistry x) e = .ok (s, c, t) := by
  fin_cases hs <;> fin_cases hc <;> fin_cases ht <;> exact ⟨_, rfl, rfl⟩

/-- **C3** witness: the `(json, lz4, base64)` instance, with canonical
extension `".json.lz4.b64"`. -/
theorem canonical_extension_roundtrip_witness :
    ∃ e, get_extension (defaultRegistry trivialCodecs) "json" (some "lz4") (some "base64")
        (some "base64" : Option String).isSome false = .ok e ∧
      pipeline_from_extension (defaultRegistry trivialCodecs) e =
        .ok ("json", some "lz4", some "base64") :=
  canonical_extension_roundtrip trivialCodecs "json" (some "lz4") (some "base64")
    (by decide) (by decide) (by decide)

/-- **C8**: compiling a pipeline whose serialization name is
registered neither as a binary nor as a text serializer fails with the
unknown-protocol `KeyError` from the very first lookup (the compiler
body is pure — no I/O exists before or after it), and any compile-time
failure leaves the memoization cache exactly as it was, so a
subsequent call with the same specification re-runs the lookup. -/
theorem compile_unknown_serializer_not_cached
    (r : Registry) (s : String) (c t : Option String) (cache : PipelineCache)
    (hmiss : cacheLookup cache (s, c, t) = none) :
    (r.loaders.contains s = false → r.textLoaders.contains s = false →
      compile_pipeline r s c t =
        .error (.keyError ("Unknown serialization protocol: " ++ s))) ∧
    (∀ e, compile_pipeline r s c t = .error e →
      compile_pipeline_cached r cache s c t = (.error e, cache)) := by
  constructor
  · intro h1 h2
    unfold compile_pipeline is_binary_serialization
    rw [h1, h2]
    simp
  · intro e he
    unfold compile_pipeline_cached
    simp only [hmiss, he]

/-- **C8** witness: compiling with the unregistered name `"xml"` on
the default registry with an empty cache. -/
theorem compile_unknown_serializer_not_cached_witness :
    compile_pipeline (defaultRegistry trivialCodecs) "xml" none none =
      .error (.keyError ("Unknown serialization protocol: " ++ "xml")) ∧
    compile_pipeline_cached (defaultRegistry trivialCodecs) [] "xml" none none =
      (.error (.keyError ("Unknown serialization protocol: " ++ "xml")), []) := by
  have h := compile_unknown_serializer_not_cached (defaultRegistry trivialCodecs)
    "xml" none none [] rfl
  have h1 := h.1 rfl rfl
  exact ⟨h1, h.2 _ h1⟩

/-- **C4** (corrected claim, counterexample): on a fresh default
registry — whose own (child) maps are empty, `"pickle"` living only in
the inherited class-level parent maps — registering a serializer named
`"pickle"` fails with the duplicate-name `KeyError` instead of
shadowing the parent entry: the duplicate check `name in self.loaders`
consults the whole `ChainMap`, inherited entries included. -/
theorem register_duplicate_counts_parent_counterexample :
    (defaultRegistry trivialCodecs).loaders.child = [] ∧
    (defaultRegistry trivialCodecs).dumpers.child = [] ∧
    register_serializer (defaultRegistry trivialCodecs) "pickle" "pkl2"
      (.given true fun v => .ok v) (.given true fun v => .ok v)
      (.given true fun v => .ok v) (.given true fun v => .ok v) true =
      .error (.keyError "pickle is already registered; choose a different name") :=
  ⟨rfl, rfl, rfl⟩

/-- **C4** (amended): registration under a name fails with the
duplicate-name error exactly when the name exists for that kind in the
child map or in the inherited parent map — an inherited name cannot be
shadowed by registration.  A successful registration of a fresh name
writes only the child layer: every parent map is unchanged (so the
parent registry's own lookups are unaffected) and lookups of every
other name on this registry are unchanged. -/
theorem register_serializer_layering (r : Registry) (name ext : String)
    (sarg darg ssarg sdarg : PyArg) (binary : Bool)
    (hs : sarg.isCallable = true) (hss : ssarg.isCallable = true)
    (hd : darg.isCallable = true) :
    (((if binary then r.loaders else r.textLoaders).contains name
        || (if binary then r.dumpers else r.textDumpers).contains name) = true →
      register_serializer r name ext sarg darg ssarg sdarg binary =
        .error (.keyError (name ++ " is already registered; choose a different name"))) ∧
    (((if binary then r.loaders else r.textLoaders).contains name
        || (if binary then r.dumpers else r.textDumpers).contains name) = false →
      ∃ r2, register_serializer r name ext sarg darg ssarg sdarg binary = .ok r2 ∧
        r2.loaders.parent = r.loaders.parent ∧
        r2.dumpers.parent = r.dumpers.parent ∧
        r2.textLoaders.parent = r.textLoaders.parent ∧
        r2.textDumpers.parent = r.textDumpers.parent ∧
        r2.fileLoaders.parent = r.fileLoaders.parent ∧
        r2.fileDumpers.parent = r.fileDumpers.parent ∧
        r2.textFileLoaders.parent = r.textFileLoaders.parent ∧
        r2.textFileDumpers.parent = r.textFileDumpers.parent ∧
        r2.serializationExtensions.parent = r.serializationExtensions.parent ∧
        (∀ m, m ≠ name →
          (if binary then r2.loaders else r2.textLoaders).find m =
            (if binary then r.loaders else r.textLoaders).find m ∧
          (if binary then r2.dumpers else r2.textDumpers).find m =
            (if binary then r.dumpers else r.textDumpers).find m)) := by
  constructor
  · intro hdup
    unfold register_serializer
    simp only [hdup, if_true]
  · intro hfresh
    unfold register_serializer
    simp only [hfresh, Bool.false_eq_true, if_false, checkCallable, hs, hss, hd, if_true]
    cases binary with
    | true =>
      refine ⟨_, rfl, rfl, rfl, rfl, rfl, rfl, rfl, rfl, rfl, rfl, ?_⟩
      intro m hm
      constructor <;> simp [Layered.find, Layered.insert, PyDict.find] <;>
        (intro h; exact absurd h.symm hm)
    | false =>
      refine ⟨_, rfl, rfl, rfl, rfl, rfl, rfl, rfl, rfl, rfl, rfl, ?_⟩
      intro m hm
      constructor <;> simp [Layered.find, Layered.insert, PyDict.find] <;>
        (intro h; exact absurd h.symm hm)

/-- **C4** witness: registering `"newfmt"` (fresh in both layers) on
the default registry succeeds without touching the parent maps, and
the duplicate branch instantiated at `"pickle"`. -/
theorem register_serializer_layering_witness :
    register_serializer (defaultRegistry trivialCodecs) "pickle" "pkl2"
      (.given true fun v => .ok v) (.given true fun v => .ok v)
      (.given true fun v => .ok v) (.given true fun v => .ok v) true =
      .error (.keyError ("pickle" ++ " is already registered; choose a different name")) ∧
    ∃ r2, register_serializer (defaultRegistry trivialCodecs) "newfmt" "new"
      (.given true fun v => .ok v) (.given true fun v => .ok v)
      (.given true fun v => .ok v) (.given true fun v => .ok v) true = .ok r2 ∧
      r2.loaders.parent = (defaultRegistry trivialCodecs).loaders.parent := by
  constructor
  · exact (register_serializer_layering (defaultRegistry trivialCodecs) "pickle" "pkl2"
      (.given true fun v => .ok v) (.given true fun v => .ok v)
      (.given true fun v => .ok v) (.given true fun v => .ok v) true
      rfl rfl rfl).1 rfl
  · obtain ⟨r2, hr2, hpar, _⟩ := (register_serializer_layering (defaultRegistry trivialCodecs)
      "newfmt" "new"
      (.given true fun v => .ok v) (.given true fun v => .ok v)
      (.given true fun v => .ok v) (.given true fun v => .ok v) true
      rfl rfl rfl).2 rfl
    exact ⟨r2, hr2, hpar⟩

theorem PyArg.orElse_of_isCallable {a : PyArg} (h : a.isCallable = true) (fb : Func) :
    a.orElse fb = a.func := by
  cases a with
  | none => cases h
  | given c f => rfl

/-- **C9** (corrected claim, counterexample): with `serializer`,
`deserializer` and `stream_serializer` callable and
`stream_deserializer` omitted, registration succeeds — its
invocability is never checked — and the stored file loader is
`StreamDeserializer(deserializer)`: the fallback of
`stream_deserializer or StreamDeserializer(deserializer)` runs, so
that fallback is reachable (and works, reading the file content and
applying the deserializer), contrary to the claim that all four
wrapper fallbacks are unreachable. -/
theorem register_streamdeser_fallback_reached :
    (register_serializer (defaultRegistry trivialCodecs) "newfmt" "new"
        (.given true fun v => .ok v) (.given true fun v => .ok v)
        (.given true fun v => .ok v) .none true).toOption.map
      (fun r2 => r2.fileLoaders.find "newfmt") =
      some (some (streamDeserializerWrap (PyArg.given true fun v => .ok v).func)) ∧
    streamDeserializerWrap (PyArg.given true fun v => .ok v).func (.bytes [7]) =
      .ok (.bytes [7]) :=
  ⟨rfl, rfl⟩

/-- **C9** (amended): `register_serializer` raises `TypeError`
whenever any one of `serializer`, `deserializer` or
`stream_serializer` is omitted or otherwise not callable, although all
are declared optional — so the `StrSerializer`, `StreamSerializer` and
`StrDeserializer` fallbacks are unreachable, and a successful
registration stores the caller's own three functions.  Because the
validation loop checks `stream_serializer` a second time in place of
`stream_deserializer`, the latter's invocability is never checked:
registration succeeds for every `stream_deserializer` argument,
storing the provided object as the file loader even when it is not
callable, and storing the reachable `StreamDeserializer(deserializer)`
fallback when it is omitted. -/
theorem register_serializer_callable_check_bug (r : Registry) (name ext : String)
    (sarg darg ssarg : PyArg) (binary : Bool)
    (hfresh : ((if binary then r.loaders else r.textLoaders).contains name
        || (if binary then r.dumpers else r.textDumpers).contains name) = false) :
    ((sarg.isCallable = false ∨ ssarg.isCallable = false ∨ darg.isCallable = false) →
      ∀ sdarg, ∃ msg, register_serializer r name ext sarg darg ssarg sdarg binary =
        .error (.typeError msg)) ∧
    (sarg.isCallable = true → ssarg.isCallable = true → darg.isCallable = true →
      ∀ sdarg, ∃ r2, register_serializer r name ext sarg darg ssarg sdarg binary = .ok r2 ∧
        (if binary then r2.dumpers else r2.textDumpers).find name = some sarg.func ∧
        (if binary then r2.loaders else r2.textLoaders).find name = some darg.func ∧
        (if binary then r2.fileDumpers else r2.textFileDumpers).find name = some ssarg.func ∧
        (if binary then r2.fileLoaders else r2.textFileLoaders).find name =
          some (sdarg.orElse (streamDeserializerWrap darg.func))) := by
  constructor
  · intro hbad sdarg
    unfold register_serializer
    simp only [hfresh, Bool.false_eq_true, if_false, checkCallable]
    cases hsc : sarg.isCallable with
    | false => exact ⟨"serializer must be callable", by simp⟩
    | true =>
      cases hssc : ssarg.isCallable with
      | false => exact ⟨"stream_serializer must be callable", by simp⟩
      | true =>
        cases hdc : darg.isCallable with
        | false => exact ⟨"deserializer must be callable", by simp⟩
        | true =>
          rcases hbad with h | h | h
          · rw [hsc] at h; cases h
          · rw [hssc] at h; cases h
          · rw [hdc] at h; cases h
  · intro hsc hssc hdc sdarg
    unfold register_serializer
    simp only [hfresh, Bool.false_eq_true, if_false, checkCallable, hsc, hssc, hdc, if_true,
      PyArg.orElse_of_isCallable hsc, PyArg.orElse_of_isCallable hssc,
      PyArg.orElse_of_isCallable hdc]
    cases binary with
    | true =>
      refine ⟨_, rfl, ?_, ?_, ?_, ?_⟩ <;>
        simp [Layered.find, Layered.insert, PyDict.find]
    | false =>
      refine ⟨_, rfl, ?_, ?_, ?_, ?_⟩ <;>
        simp [Layered.find, Layered.insert, PyDict.find]

/-- **C9** witness: on the default registry, registering `"newfmt"`
with `serializer=None` fails with `TypeError`, while registering with
three callable arguments and a non-callable `stream_deserializer`
succeeds and stores that argument's (non-callable) function object. -/
theorem register_serializer_callable_check_bug_witness :
    (∃ msg, register_serializer (defaultRegistry trivialCodecs) "newfmt" "new"
      .none (.given true fun v => .ok v) (.given true fun v => .ok v)
      (.given true fun v => .ok v) true = .error (.typeError msg)) ∧
    (∃ r2, register_serializer (defaultRegistry trivialCodecs) "newfmt" "new"
      (.given true fun v => .ok v) (.given true fun v => .ok v)
      (.given true fun v => .ok v) (.given false fun v => .ok v) true = .ok r2 ∧
      r2.fileLoaders.find "newfmt" =
        some ((PyArg.given false fun v => .ok v).orElse
          (streamDeserializerWrap (PyArg.given true fun v => .ok v).func))) := by
  have h := register_serializer_callable_check_bug (defaultRegistry trivialCodecs)
    "newfmt" "new" .none (.given true fun v => .ok v) (.given true fun v => .ok v) true rfl
  have h2 := register_serializer_callable_check_bug (defaultRegistry trivialCodecs)
    "newfmt" "new" (.given true fun v => .ok v) (.given true fun v => .ok v)
    (.given true fun v => .ok v) true rfl
  refine ⟨h.1 (Or.inl rfl) _, ?_⟩
  obtain ⟨r2, hr2, _, _, _, hload⟩ :=
    h2.2 rfl rfl rfl (.given false fun v => .ok v)
  exact ⟨r2, hr2, hload⟩

/-- **C6** (corrected claim, counterexample): an encoding error during
`_TextIOMethods.dump_stream_to_file` on a path target leaves the
internally opened handle unclosed — `file.close()` sits after the
write loop with no `try`/`finally`, so this exit path does not close
the file, contrary to the claim that every facade operation closes
path-opened handles on every exit path. -/
theorem text_dump_error_leaves_handle_open :
    (dump_stream_to_file_path (fun _ => .error (.typeError "not serializable"))
      [.obj 0]).closed = false :=
  rfl

/-- **C6** (amended): `dump` and `load` (which use `with open(...)`)
close the internally opened handle on success and on error alike, and
never close a caller-supplied stream; the text sub-interface's
`dump_stream_to_file` and `load_stream_from_file` close the internally
opened handle exactly when the operation completes without error, and
likewise never close a caller-supplied stream. -/
theorem facade_handle_closing (toFile fromFile encode decode : Func)
    (obj content : PyVal) (items lines : List PyVal) :
    (FlexiblePersist_dump_path toFile obj).closed = true ∧
    (FlexiblePersist_load_path fromFile content).closed = true ∧
    (FlexiblePersist_dump_stream toFile obj).closed = false ∧
    (FlexiblePersist_load_stream fromFile content).closed = false ∧
    ((dump_stream_to_file_path encode items).closed = true ↔
      ∃ ls, writeLines encode items = .ok ls) ∧
    ((load_stream_from_file_path decode lines).closed = true ↔
      ∃ xs, readLines decode lines = .ok xs) ∧
    (dump_stream_to_file_stream encode items).closed = false ∧
    (load_stream_from_file_stream decode lines).closed = false := by
  refine ⟨?_, ?_, rfl, rfl, ?_, ?_, rfl, rfl⟩
  · unfold FlexiblePersist_dump_path
    cases toFile obj <;> rfl
  · unfold FlexiblePersist_load_path
    cases fromFile content <;> rfl
  · unfold dump_stream_to_file_path
    cases h : writeLines encode items <;> simp [h]
  · unfold load_stream_from_file_path
    cases h : readLines decode lines <;> simp [h]

theorem get_lambda_ok {α} {d : Layered α} {k kw : String} {v : α}
    (h : get_lambda d k kw = .ok v) : d.find k = some v := by
  unfold get_lambda at h
  cases hf : d.find k with
  | none => rw [hf] at h; cases h
  | some w => rw [hf] at h; injection h with h; rw [h]

theorem inverts_bridge (s0 : List Nat) :
    Inverts str_to_bytes_default bytes_to_str_default (.str s0) (.bytes s0) :=
  ⟨rfl, rfl⟩

/-- The pair returned by `get_text_encoder_pair` always round-trips
bytes through `str`: a str-returning encoder does so by its own
contract, and a binary encoder is composed with the default
bytes→str/str→bytes bridges. -/
theorem get_text_encoder_pair_roundtrip (r : Registry) (t : String) (enc dec : Func)
    (h : get_text_encoder_pair r t = .ok (enc, dec))
    (hrt : TextEncoderRoundtrip r t) : BytesToStrRoundtrip enc dec := by
  unfold get_text_encoder_pair at h
  cases h1 : get_lambda r.textEncoders t "conversion" with
  | error e => simp only [h1] at h; cases h
  | ok enc0 =>
    cases h2 : get_lambda r.textDecoders t "conversion" with
    | error e => simp only [h1, h2] at h; cases h
    | ok dec0 =>
      simp only [h1, h2] at h
      have hrt' := hrt enc0 dec0 (get_lambda_ok h1) (get_lambda_ok h2)
      by_cases hmem : t ∈ r.textEncodersReturnStr
      · rw [if_pos hmem] at h hrt'
        injection h with h
        injection h with ha hb
        subst ha; subst hb
        exact hrt'
      · rw [if_neg hmem] at h hrt'
        injection h with h
        injection h with ha hb
        subst ha; subst hb
        intro b
        obtain ⟨b2, he, hd⟩ := hrt' b
        refine ⟨b2, ?_, ?_⟩
        · rw [pycompose_eq]
          simp [applyChain, he, bytes_to_str_default]
        · rw [pycompose_eq]
          simp [applyChain, hd, str_to_bytes_default]

theorem pycompose_reverse_eq (fs : List Func) (x : PyVal) :
    pycompose fs.reverse x = applyChain fs x := by
  rw [pycompose_eq, List.reverse_reverse]

/-- **C1**: for every registry, serialization `S`, compression `C`
(including none) and text encoding `T` (including none), if each
constituent codec satisfies its round-trip stage contract — the
serializer at the value `x`, the compressor and the raw text encoder
on all byte strings — then the pipeline compiled from `(S, C, T)`
satisfies `from_text(to_text(x)) == x`. -/
theorem compile_pipeline_roundtrip
    (r : Registry) (s : String) (c t : Option String) (p : Pipeline) (x : PyVal)
    (hp : compile_pipeline r s c t = .ok p)
    (hser : SerializerRoundtripAt r s x)
    (hcomp : ∀ cn, c = some cn → CompressorRoundtrip r cn)
    (htxt : ∀ tn, t = some tn → TextEncoderRoundtrip r tn) :
    ∃ z, p.to_str x = .ok z ∧ p.from_str z = .ok x := by
  unfold compile_pipeline at hp
  cases hb : is_binary_serialization r s with
  | error e => simp only [hb] at hp; exact Except.noConfusion hp
  | ok binary =>
  simp only [hb] at hp
  cases hpr : (if binary then get_serializer_pairs r s
               else get_text_serializer_pairs r s) with
  | error e => simp only [hpr] at hp; exact Except.noConfusion hp
  | ok pr =>
  obtain ⟨ts, fs', tf, ff⟩ := pr
  simp only [hpr] at hp
  obtain ⟨y, hy1, hy2, hy3⟩ := hser binary (ts, fs', tf, ff) hb hpr
  cases binary with
  | true =>
    simp only [if_true] at hy2 hp
    cases y with
    | obj o => simp [PyVal.isBytes] at hy2
    | str s0 => simp [PyVal.isBytes] at hy2
    | bytes b =>
      cases c with
      | none =>
        cases t with
        | none =>
          simp only [] at hp
          injection hp with hp
          subst hp
          have hchain : ChainInv [ts] [fs'] x (.bytes b) :=
            .cons ⟨hy1, hy3⟩ (.nil _)
          obtain ⟨h1, h2⟩ := chainInv_run hchain
          exact ⟨.bytes b, (pycompose_reverse_eq _ x).trans h1, (pycompose_eq _ _).trans h2⟩
        | some tn =>
          cases htep : get_text_encoder_pair r tn with
          | error e => simp only [htep] at hp; exact Except.noConfusion hp
          | ok ed =>
            obtain ⟨enc, dec⟩ := ed
            simp only [htep] at hp
            injection hp with hp
            subst hp
            obtain ⟨s2, he, hd⟩ :=
              get_text_encoder_pair_roundtrip r tn enc dec htep (htxt tn rfl) b
            have hchain : ChainInv [ts, enc] [fs', dec] x (.str s2) :=
              .cons ⟨hy1, hy3⟩ (.cons ⟨he, hd⟩ (.nil _))
            obtain ⟨h1, h2⟩ := chainInv_run hchain
            exact ⟨.str s2, (pycompose_reverse_eq _ x).trans h1, (pycompose_eq _ _).trans h2⟩
      | some cn =>
        cases hcp : get_compressor_pair r cn with
        | error e => simp only [hcp] at hp; exact Except.noConfusion hp
        | ok cp =>
          obtain ⟨comp, decomp⟩ := cp
          simp only [hcp] at hp
          obtain ⟨b2, hc1, hc2⟩ := hcomp cn rfl (comp, decomp) hcp b
          cases t with
          | none =>
            simp only [] at hp
            injection hp with hp
            subst hp
            have hchain : ChainInv [ts, comp] [fs', decomp] x (.bytes b2) :=
              .cons ⟨hy1, hy3⟩ (.cons ⟨hc1, hc2⟩ (.nil _))
            obtain ⟨h1, h2⟩ := chainInv_run hchain
            exact ⟨.bytes b2, (pycompose_reverse_eq _ x).trans h1, (pycompose_eq _ _).trans h2⟩
          | some tn =>
            cases htep : get_text_encoder_pair r tn with
            | error e => simp only [htep] at hp; exact Except.noConfusion hp
            | ok ed =>
              obtain ⟨enc, dec⟩ := ed
              simp only [htep] at hp
              injection hp with hp
              subst hp
              obtain ⟨s3, he, hd⟩ :=
                get_text_encoder_pair_roundtrip r tn enc dec htep (htxt tn rfl) b2
              have hchain : ChainInv [ts, comp, enc] [fs', decomp, dec] x (.str s3) :=
                .cons ⟨hy1, hy3⟩ (.cons ⟨hc1, hc2⟩ (.cons ⟨he, hd⟩ (.nil _)))
              obtain ⟨h1, h2⟩ := chainInv_run hchain
              exact ⟨.str s3, (pycompose_reverse_eq _ x).trans h1, (pycompose_eq _ _).trans h2⟩
  | false =>
    simp only [Bool.false_eq_true, if_false] at hy2 hp
    cases y with
    | obj o => simp [PyVal.isStr] at hy2
    | bytes b0 => simp [PyVal.isStr] at hy2
    | str s0 =>
      cases c with
      | none =>
        cases t with
        | none =>
          simp only [] at hp
          injection hp with hp
          subst hp
          have hchain : ChainInv [ts] [fs'] x (.str s0) :=
            .cons ⟨hy1, hy3⟩ (.nil _)
          obtain ⟨h1, h2⟩ := chainInv_run hchain
          exact ⟨.str s0, (pycompose_reverse_eq _ x).trans h1, (pycompose_eq _ _).trans h2⟩
        | some tn =>
          cases htep : get_text_encoder_pair r tn with
          | error e => simp only [htep] at hp; exact Except.noConfusion hp
          | ok ed =>
            obtain ⟨enc, dec⟩ := ed
            simp only [htep] at hp
            injection hp with hp
            subst hp
            obtain ⟨s2, he, hd⟩ :=
              get_text_encoder_pair_roundtrip r tn enc dec htep (htxt tn rfl) s0
            have hchain : ChainInv [ts, str_to_bytes_default, enc]
                [fs', bytes_to_str_default, dec] x (.str s2) :=
              .cons ⟨hy1, hy3⟩ (.cons (inverts_bridge s0) (.cons ⟨he, hd⟩ (.nil _)))
            obtain ⟨h1, h2⟩ := chainInv_run hchain
            exact ⟨.str s2, (pycompose_reverse_eq _ x).trans h1, (pycompose_eq _ _).trans h2⟩
      | some cn =>
        cases hcp : get_compressor_pair r cn with
        | error e => simp only [hcp] at hp; exact Except.noConfusion hp
        | ok cp =>
          obtain ⟨comp, decomp⟩ := cp
          simp only [hcp] at hp
          obtain ⟨b2, hc1, hc2⟩ := hcomp cn rfl (comp, decomp) hcp s0
          cases t with
          | none =>
            simp only [] at hp
            injection hp with hp
            subst hp
            have hchain : ChainInv [ts, str_to_bytes_default, comp]
                [fs', bytes_to_str_default, decomp] x (.bytes b2) :=
              .cons ⟨hy1, hy3⟩ (.cons (inverts_bridge s0) (.cons ⟨hc1, hc2⟩ (.nil _)))
            obtain ⟨h1, h2⟩ := chainInv_run hchain
            exact ⟨.bytes b2, (pycompose_reverse_eq _ x).trans h1, (pycompose_eq _ _).trans h2⟩
          | some tn =>
            cases htep : get_text_encoder_pair r tn with
            | error e => simp only [htep] at hp; exact Except.noConfusion hp
            | ok ed =>
              obtain ⟨enc, dec⟩ := ed
              simp only [htep] at hp
              injection hp with hp
              subst hp
              obtain ⟨s3, he, hd⟩ :=
                get_text_encoder_pair_roundtrip r tn enc dec htep (htxt tn rfl) b2
              have hchain : ChainInv [ts, str_to_bytes_default, comp, enc]
                  [fs', bytes_to_str_default, decomp, dec] x (.str s3) :=
                .cons ⟨hy1, hy3⟩ (.cons (inverts_bridge s0)
                  (.cons ⟨hc1, hc2⟩ (.cons ⟨he, hd⟩ (.nil _))))
              obtain ⟨h1, h2⟩ := chainInv_run hchain
              exact ⟨.str s3, (pycompose_reverse_eq _ x).trans h1, (pycompose_eq _ _).trans h2⟩

/-- **C1** witness: the `(pickle, lz4, base64)` pipeline over the
default registry with identity codec implementations, round-tripping
the byte string `[7]`. -/
theorem compile_pipeline_roundtrip_witness :
    ∃ p z, compile_pipeline (defaultRegistry trivialCodecs) "pickle"
        (some "lz4") (some "base64") = .ok p ∧
      p.to_str (.bytes [7]) = .ok z ∧ p.from_str z = .ok (.bytes [7]) := by
  obtain ⟨p, hp⟩ : ∃ p, compile_pipeline (defaultRegistry trivialCodecs) "pickle"
      (some "lz4") (some "base64") = .ok p := ⟨_, rfl⟩
  obtain ⟨z, h1, h2⟩ := compile_pipeline_roundtrip (defaultRegistry trivialCodecs)
    "pickle" (some "lz4") (some "base64") p (.bytes [7]) hp
    (by
      intro binary pr hb hpr
      have hb2 : (Except.ok true : Except PyErr Bool) = .ok binary := hb
      injection hb2 with hb2
      subst hb2
      have hpr2 : (Except.ok (((fun v => .ok v) : Func), ((fun v => .ok v) : Func),
          ((fun v => .ok v) : Func), ((fun v => .ok v) : Func)) :
          Except PyErr (Func × Func × Func × Func)) = .ok pr := hpr
      injection hpr2 with hpr2
      subst hpr2
      exact ⟨.bytes [7], rfl, rfl, rfl⟩)
    (by
      intro cn hcn cp hcp
      injection hcn with hcn
      subst hcn
      have hcp2 : (Except.ok (((fun v => .ok v) : Func), ((fun v => .ok v) : Func)) :
          Except PyErr (Func × Func)) = .ok cp := hcp
      injection hcp2 with hcp2
      subst hcp2
      intro b
      exact ⟨b, rfl, rfl⟩)
    (by
      intro tn htn enc dec henc hdec
      injection htn with htn
      subst htn
      have henc2 : (some ((fun v => .ok v) : Func)) = some enc := henc
      have hdec2 : (some ((fun v => .ok v) : Func)) = some dec := hdec
      injection henc2 with henc2
      injection hdec2 with hdec2
      subst henc2
      subst hdec2
      rw [if_neg (show ¬("base64" ∈
        (defaultRegistry trivialCodecs).textEncodersReturnStr) from
          List.not_mem_nil _)]
      intro b
      exact ⟨b, rfl, rfl⟩)
  exact ⟨p, z, hp, h1, h2⟩

theorem bytes_to_str_default_ok_isStr {u v : PyVal}
    (h : bytes_to_str_default u = .ok v) : v.isStr = true := by
  cases u with
  | obj o => exact Except.noConfusion h
  | str s => exact Except.noConfusion h
  | bytes b => injection h with h; subst h; rfl

theorem applyChain_last_ok {fs : List Func} {f : Func} {x v : PyVal}
    (h : applyChain (fs ++ [f]) x = .ok v) : ∃ u, f u = .ok v := by
  rw [applyChain_append] at h
  cases hc : applyChain fs x with
  | error e => rw [hc] at h; cases h
  | ok u =>
    rw [hc] at h
    refine ⟨u, ?_⟩
    cases hf : f u with
    | error e => simp [applyChain, hf] at h
    | ok w => simp [applyChain, hf] at h; rw [h]

/-- The forward function returned by `get_text_encoder_pair` only
ever returns `str` values, provided a str-registered raw encoder
honors its declaration; for a binary-registered encoder this needs no
hypothesis — its output passes through `bytes_to_str_default`. -/
theorem get_text_encoder_pair_encoder_isStr (r : Registry) (tn : String)
    (enc dec : Func) (h : get_text_encoder_pair r tn = .ok (enc, dec))
    (henc : ∀ enc0, r.textEncoders.find tn = some enc0 →
      tn ∈ r.textEncodersReturnStr → ∀ v w, enc0 v = .ok w → w.isStr = true) :
    ∀ v w, enc v = .ok w → w.isStr = true := by
  unfold get_text_encoder_pair at h
  cases h1 : get_lambda r.textEncoders tn "conversion" with
  | error e => simp only [h1] at h; cases h
  | ok enc0 =>
    cases h2 : get_lambda r.textDecoders tn "conversion" with
    | error e => simp only [h1, h2] at h; cases h
    | ok dec0 =>
      simp only [h1, h2] at h
      by_cases hmem : tn ∈ r.textEncodersReturnStr
      · rw [if_pos hmem] at h
        injection h with h
        injection h with ha hb
        subst ha
        exact henc enc0 (get_lambda_ok h1) hmem
      · rw [if_neg hmem] at h
        injection h with h
        injection h with ha hb
        subst ha
        intro v w hw
        have hw2 : applyChain ([enc0] ++ [bytes_to_str_default]) v = .ok w :=
          (pycompose_eq [bytes_to_str_default, enc0] v).symm.trans hw
        obtain ⟨u, hu⟩ := applyChain_last_ok hw2
        exact bytes_to_str_default_ok_isStr hu

/-- **C10**: whenever a pipeline is compiled with a text encoding set,
its file mode is text (`''`) and its `to_str` only ever returns `str`
values — a binary-registered text encoder needs no assumption, since
`get_text_encoder_pair` composes it with the registry's default
bytes→str decode step (with the matching encode step on the inverse
path), so its byte output is never exposed; a str-registered encoder
is assumed to honor its declaration. -/
theorem compiled_text_pipeline_mode_and_str
    (r : Registry) (s : String) (c : Option String) (tn : String) (p : Pipeline)
    (hp : compile_pipeline r s c (some tn) = .ok p)
    (henc : ∀ enc0, r.textEncoders.find tn = some enc0 →
      tn ∈ r.textEncodersReturnStr → ∀ v w, enc0 v = .ok w → w.isStr = true) :
    p.file_mode = "" ∧ ∀ x v, p.to_str x = .ok v → v.isStr = true := by
  unfold compile_pipeline at hp
  cases hb : is_binary_serialization r s with
  | error e => simp only [hb] at hp; exact Except.noConfusion hp
  | ok binary =>
  simp only [hb] at hp
  cases hpr : (if binary then get_serializer_pairs r s
               else get_text_serializer_pairs r s) with
  | error e => simp only [hpr] at hp; exact Except.noConfusion hp
  | ok pr =>
  obtain ⟨ts, fs', tf, ff⟩ := pr
  simp only [hpr] at hp
  cases binary with
  | true =>
    simp only [if_true] at hp
    cases c with
    | none =>
      cases htep : get_text_encoder_pair r tn with
      | error e => simp only [htep] at hp; exact Except.noConfusion hp
      | ok ed =>
        obtain ⟨enc, dec⟩ := ed
        simp only [htep] at hp
        injection hp with hp
        subst hp
        refine ⟨rfl, ?_⟩
        intro x v hv
        have hv2 : applyChain ([ts] ++ [enc]) x = .ok v :=
          (pycompose_reverse_eq ([ts] ++ [enc]) x).symm.trans hv
        obtain ⟨u, hu⟩ := applyChain_last_ok hv2
        exact get_text_encoder_pair_encoder_isStr r tn enc dec htep henc u v hu
    | some cn =>
      cases hcp : get_compressor_pair r cn with
      | error e => simp only [hcp] at hp; exact Except.noConfusion hp
      | ok cp =>
        obtain ⟨comp, decomp⟩ := cp
        simp only [hcp] at hp
        cases htep : get_text_encoder_pair r tn with
        | error e => simp only [htep] at hp; exact Except.noConfusion hp
        | ok ed =>
          obtain ⟨enc, dec⟩ := ed
          simp only [htep] at hp
          injection hp with hp
          subst hp
          refine ⟨rfl, ?_⟩
          intro x v hv
          have hv2 : applyChain (([ts] ++ [comp]) ++ [enc]) x = .ok v :=
            (pycompose_reverse_eq (([ts] ++ [comp]) ++ [enc]) x).symm.trans hv
          obtain ⟨u, hu⟩ := applyChain_last_ok hv2
          exact get_text_encoder_pair_encoder_isStr r tn enc dec htep henc u v hu
  | false =>
    simp only [Bool.false_eq_true, if_false] at hp
    cases c with
    | none =>
      cases htep : get_text_encoder_pair r tn with
      | error e => simp only [htep] at hp; exact Except.noConfusion hp
      | ok ed =>
        obtain ⟨enc, dec⟩ := ed
        simp only [htep] at hp
        injection hp with hp
        subst hp
        refine ⟨rfl, ?_⟩
        intro x v hv
        have hv2 : applyChain (([ts] ++ [str_to_bytes_default]) ++ [enc]) x = .ok v :=
          (pycompose_reverse_eq (([ts] ++ [str_to_bytes_default]) ++ [enc]) x).symm.trans hv
        obtain ⟨u, hu⟩ := applyChain_last_ok hv2
        exact get_text_encoder_pair_encoder_isStr r tn enc dec htep henc u v hu
    | some cn =>
      cases hcp : get_compressor_pair r cn with
      | error e => simp only [hcp] at hp; exact Except.noConfusion hp
      | ok cp =>
        obtain ⟨comp, decomp⟩ := cp
        simp only [hcp] at hp
        cases htep : get_text_encoder_pair r tn with
        | error e => simp only [htep] at hp; exact Except.noConfusion hp
        | ok ed =>
          obtain ⟨enc, dec⟩ := ed
          simp only [htep] at hp
          injection hp with hp
          subst hp
          refine ⟨rfl, ?_⟩
          intro x v hv
          have hv2 : applyChain ((([ts] ++ [str_to_bytes_default]) ++ [comp]) ++ [enc]) x
              = .ok v :=
            (pycompose_reverse_eq ((([ts] ++ [str_to_bytes_default]) ++ [comp]) ++ [enc])
              x).symm.trans hv
          obtain ⟨u, hu⟩ := applyChain_last_ok hv2
          exact get_text_encoder_pair_encoder_isStr r tn enc dec htep henc u v hu

/-- **C10** witness: the `(pickle, none, base64)` pipeline over the
default registry with identity codecs has text mode and str-only
`to_str` output. -/
theorem compiled_text_pipeline_mode_and_str_witness :
    ∃ p, compile_pipeline (defaultRegistry trivialCodecs) "pickle" none
        (some "base64") = .ok p ∧
      p.file_mode = "" ∧ ∀ x v, p.to_str x = .ok v → v.isStr = true := by
  obtain ⟨p, hp⟩ : ∃ p, compile_pipeline (defaultRegistry trivialCodecs) "pickle" none
      (some "base64") = .ok p := ⟨_, rfl⟩
  have h := compiled_text_pipeline_mode_and_str (defaultRegistry trivialCodecs)
    "pickle" none "base64" p hp
    (fun enc0 _ hmem => absurd hmem (List.not_mem_nil _))
  exact ⟨p, hp, h.1, h.2⟩

theorem charDigitVal_digitChar {d : Nat} (h : d < 10) :
    charDigitVal (digitChar d) = d := by
  interval_cases d <;> rfl

theorem digitChar_isDigit (d : Nat) : (digitChar d).isDigit = true := by
  rcases d with _|_|_|_|_|_|_|_|_|d <;> rfl

theorem renderNatAux_mem_isDigit :
    ∀ (fuel n : Nat), ∀ c ∈ renderNatAux fuel n, c.isDigit = true := by
  intro fuel
  induction fuel with
  | zero => intro n c hc; cases hc
  | succ fuel ih =>
    intro n c hc
    unfold renderNatAux at hc
    by_cases hn : n < 10
    · rw [if_pos hn] at hc
      rw [List.mem_singleton] at hc
      subst hc
      exact digitChar_isDigit n
    · rw [if_neg hn] at hc
      rcases List.mem_append.mp hc with hc | hc
      · exact ih (n / 10) c hc
      · rw [List.mem_singleton] at hc
        subst hc
        exact digitChar_isDigit (n % 10)

theorem renderNatAux_ne_nil (fuel n : Nat) : renderNatAux (fuel + 1) n ≠ [] := by
  unfold renderNatAux
  by_cases hn : n < 10
  · rw [if_pos hn]; simp
  · rw [if_neg hn]; simp

theorem parse_renderNatAux :
    ∀ (fuel n a : Nat), n < 10 ^ fuel →
      List.foldl (fun acc c => 10 * acc + charDigitVal c) a (renderNatAux fuel n) =
        a * 10 ^ (renderNatAux fuel n).length + n := by
  intro fuel
  induction fuel with
  | zero =>
    intro n a h
    simp only [pow_zero, Nat.lt_one_iff] at h
    subst h
    simp [renderNatAux]
  | succ fuel ih =>
    intro n a h
    unfold renderNatAux
    by_cases hn : n < 10
    · rw [if_pos hn]
      simp [List.foldl, charDigitVal_digitChar hn]
      ring
    · rw [if_neg hn]
      have hfuel : 0 < fuel := by
        rcases Nat.eq_zero_or_pos fuel with hf | hf
        · subst hf; simp at h; omega
        · exact hf
      have hdiv : n / 10 < 10 ^ fuel := by
        rw [Nat.div_lt_iff_lt_mul (by norm_num : 0 < 10)]
        calc n < 10 ^ (fuel + 1) := h
        _ = 10 ^ fuel * 10 := by ring
      rw [List.foldl_append]
      rw [ih (n / 10) a hdiv]
      simp [List.foldl, charDigitVal_digitChar (Nat.mod_lt n (by norm_num) : n % 10 < 10),
        List.length_append]
      have : 10 * (n / 10) + n % 10 = n := Nat.div_add_mod n 10
      ring_nf
      omega

theorem parseNat_renderNat (n : Nat) : parseNat (renderNat n) = n := by
  unfold parseNat renderNat
  have h : n < 10 ^ (n + 1) :=
    calc n < 10 ^ n := Nat.lt_pow_self (by norm_num) n
    _ ≤ 10 ^ (n + 1) := Nat.pow_le_pow_right (by norm_num) (by omega)
  rw [parse_renderNatAux (n + 1) n 0 h]
  simp

theorem foldl_parse_replicate_zero (m : Nat) :
    List.foldl (fun acc c => 10 * acc + charDigitVal c) 0 (List.replicate m '0') = 0 := by
  induction m with
  | zero => rfl
  | succ m ih => simpa [List.replicate_succ, List.foldl, charDigitVal] using ih

theorem parseNat_rjustZeros (w : Nat) (s : List Char) :
    parseNat (rjustZeros w s) = parseNat s := by
  unfold parseNat rjustZeros
  rw [List.foldl_append, foldl_parse_replicate_zero]

theorem parseNat_padded_renderNat (w n : Nat) :
    parseNat (rjustZeros w (renderNat n)) = n := by
  rw [parseNat_rjustZeros, parseNat_renderNat]

theorem rjustZeros_renderNat_digits (w n : Nat) :
    ∀ c ∈ rjustZeros w (renderNat n), c.isDigit = true := by
  intro c hc
  rcases List.mem_append.mp hc with hc | hc
  · rw [List.eq_of_mem_replicate hc]; rfl
  · exact renderNatAux_mem_isDigit (n + 1) n c hc

theorem rjustZeros_renderNat_ne_nil (w n : Nat) :
    rjustZeros w (renderNat n) ≠ [] := by
  unfold rjustZeros
  intro h
  rcases List.append_eq_nil.mp h with ⟨_, h2⟩
  exact renderNatAux_ne_nil n n h2

theorem takeWhile_digits_append (k ext : List Char)
    (hk : ∀ c ∈ k, c.isDigit = true)
    (hext : ∀ c cs, ext = c :: cs → c.isDigit = false) :
    (k ++ ext).takeWhile Char.isDigit = k ∧
    (k ++ ext).dropWhile Char.isDigit = ext := by
  induction k with
  | nil =>
    simp only [List.nil_append]
    cases ext with
    | nil => exact ⟨rfl, rfl⟩
    | cons c cs =>
      have := hext c cs rfl
      constructor
      · rw [List.takeWhile_cons, this]
        rfl
      · rw [List.dropWhile_cons, this]
        rfl
  | cons a k ih =>
    have ha : a.isDigit = true := hk a (List.mem_cons_self _ _)
    obtain ⟨ih1, ih2⟩ := ih (fun c hc => hk c (List.mem_cons_of_mem a hc))
    constructor
    · rw [List.cons_append, List.takeWhile_cons, ha, ih1]
      rfl
    · rw [List.cons_append, List.dropWhile_cons, ha, ih2]
      rfl

/-- The loader's filename match succeeds exactly on the names the
dumper writes, returning the digit key. -/
theorem matchIndexedName_streamFileName (pre ext k : List Char)
    (hknil : k ≠ []) (hk : ∀ c ∈ k, c.isDigit = true)
    (hext : ∀ c cs, ext = c :: cs → c.isDigit = false) :
    matchIndexedName pre ext (streamFileName pre k ext) = some k := by
  unfold matchIndexedName streamFileName
  obtain ⟨ht, hd⟩ := takeWhile_digits_append k ext hk hext
  rw [if_pos]
  · rw [List.append_assoc, List.drop_left]
    simp only [ht, hd]
    rw [if_neg (by simp [List.isEmpty_iff, hknil])]
    simp
  · rw [List.append_assoc]
    exact List.isPrefixOf_iff_prefix.mpr (List.prefix_append pre (k ++ ext))

theorem filterMap_map_all_some {α β γ : Type} (l : List α) (f : α → β)
    (g : β → Option γ) (h : α → γ) (hg : ∀ a ∈ l, g (f a) = some (h a)) :
    List.filterMap g (l.map f) = l.map h := by
  induction l with
  | nil => rfl
  | cons a l ih =>
    rw [List.map_cons, List.filterMap_cons, hg a (List.mem_cons_self _ _), List.map_cons,
      ih (fun a ha => hg a (List.mem_cons_of_mem _ ha))]

theorem dirLookup_self_of_nodup :
    ∀ (files : DirFiles), (files.map Prod.fst).Nodup →
      ∀ kv ∈ files, dirLookup files kv.1 = some kv.2 := by
  intro files
  induction files with
  | nil => intro _ kv hkv; cases hkv
  | cons hd tl ih =>
    obtain ⟨n0, c0⟩ := hd
    intro hnd kv hkv
    rw [List.map_cons, List.nodup_cons] at hnd
    rcases List.mem_cons.mp hkv with hkv | hkv
    · subst hkv
      simp [dirLookup]
    · have hne : ¬ (n0 = kv.1) := by
        intro he
        apply hnd.1
        rw [he]
        exact List.mem_map.mpr ⟨kv, hkv, rfl⟩
      unfold dirLookup
      rw [if_neg hne, ih hnd.2 kv hkv]

theorem loadDirAux_along (fromFile : Func) (contents : DirFiles) :
    ∀ (pairs : List (Nat × List Char)) (tail : DirFiles) (xs : List PyVal),
      pairs.map Prod.snd = tail.map Prod.fst →
      List.Forall₂ (fun x kv => fromFile kv.2 = .ok x) xs tail →
      (∀ kv ∈ tail, dirLookup contents kv.1 = some kv.2) →
      loadDirAux fromFile contents pairs = .ok xs := by
  intro pairs
  induction pairs with
  | nil =>
    intro tail xs hnames hfa _
    cases tail with
    | nil => cases hfa; rfl
    | cons kv tl => cases hnames
  | cons p rest ih =>
    intro tail xs hnames hfa hlook
    cases tail with
    | nil => cases hnames
    | cons kv tl =>
      cases hfa with
      | cons hx hfa' =>
        rename_i x xs'
        rw [List.map_cons, List.map_cons] at hnames
        injection hnames with h1 h2
        obtain ⟨pk, pn⟩ := p
        simp only at h1
        subst h1
        unfold loadDirAux
        simp only [hlook kv (List.mem_cons_self _ _), hx,
          ih tl xs' h2 hfa' (fun kv' hkv' => hlook kv' (List.mem_cons_of_mem _ hkv'))]

theorem dumpDirAux_ok (toFile fromFile : Func) (pre extC : List Char) (nd : Nat) :
    ∀ (xs : List PyVal) (i : Nat),
      (∀ x ∈ xs, ∃ y, toFile x = .ok y ∧ fromFile y = .ok x) →
      ∃ files, dumpDirAux toFile pre extC nd i xs = .ok files ∧
        files.map Prod.fst = (List.range xs.length).map
          (fun j => streamFileName pre (rjustZeros nd (renderNat (i + j))) extC) ∧
        List.Forall₂ (fun x kv => fromFile kv.2 = .ok x) xs files := by
  intro xs
  induction xs with
  | nil =>
    intro i _
    exact ⟨[], rfl, by simp, List.Forall₂.nil⟩
  | cons x rest ih =>
    intro i h
    obtain ⟨y, hy1, hy2⟩ := h x (List.mem_cons_self _ _)
    obtain ⟨files, hf, hmap, hfa⟩ := ih (i + 1)
      (fun z hz => h z (List.mem_cons_of_mem _ hz))
    refine ⟨(streamFileName pre (rjustZeros nd (renderNat i)) extC, y) :: files,
      ?_, ?_, List.Forall₂.cons hy2 hfa⟩
    · unfold dumpDirAux
      simp only [hy1, hf]
    · rw [List.map_cons, List.length_cons, List.range_succ_eq_map, List.map_cons,
        List.map_map, hmap]
      rw [Nat.add_zero]
      congr 1
      apply List.map_congr_left
      intro j _
      have hj : i + 1 + j = i + j.succ := by omega
      simp [Function.comp, hj]

/-- Sorting (stably, by key) any permutation of a list whose keys are
strictly increasing recovers that list. -/
theorem insertionSort_perm_of_strict_sorted
    (L fs : List (Nat × List Char))
    (hperm : fs.Perm L)
    (hL : L.Pairwise (fun a b => a.1 < b.1)) :
    List.insertionSort (fun a b => a.1 ≤ b.1) fs = L := by
  haveI hTot : IsTotal (Nat × List Char) (fun a b => a.1 ≤ b.1) :=
    ⟨fun a b => Nat.le_total a.1 b.1⟩
  haveI hTrans : IsTrans (Nat × List Char) (fun a b => a.1 ≤ b.1) :=
    ⟨fun _ _ _ h1 h2 => Nat.le_trans h1 h2⟩
  haveI hAnti : IsAntisymm (Nat × List Char) (fun a b => a.1 < b.1) :=
    ⟨fun _ _ h1 h2 => absurd h2 (Nat.lt_asymm h1)⟩
  have hsorted : (List.insertionSort (fun a b => a.1 ≤ b.1) fs).Pairwise
      (fun a b => a.1 ≤ b.1) := List.sorted_insertionSort _ fs
  have hperm2 : (List.insertionSort (fun a b => a.1 ≤ b.1) fs).Perm L :=
    (List.perm_insertionSort _ fs).trans hperm
  have hnodL : (L.map Prod.fst).Nodup := by
    rw [List.Nodup, List.pairwise_map]
    exact hL.imp Nat.ne_of_lt
  have hnod : ((List.insertionSort (fun a b => a.1 ≤ b.1) fs).map Prod.fst).Nodup :=
    ((hperm2.map Prod.fst).nodup_iff).mpr hnodL
  have hne : (List.insertionSort (fun a b => a.1 ≤ b.1) fs).Pairwise
      (fun a b => a.1 ≠ b.1) := by
    rw [List.Nodup, List.pairwise_map] at hnod
    exact hnod
  have hlt : (List.insertionSort (fun a b => a.1 ≤ b.1) fs).Pairwise
      (fun a b => a.1 < b.1) :=
    (hsorted.and hne).imp fun hc => Nat.lt_of_le_of_ne hc.1 hc.2
  exact List.eq_of_perm_of_sorted hperm2 hlt hL

/-- **C7**: for every finite sequence of distinct serializable values,
`dump_stream_to_dir` followed by `load_stream_from_dir` on the same
(fresh) directory and prefix yields the values in their original
order, for any order the filesystem lists the directory in: the
loader matches filenames of the form prefix, digits, extension, sorts
numerically by the parsed integer index, and loads each in that
order.  The extension is assumed not to begin with a digit, as no
canonical extension does (they begin with a dot). -/
theorem dir_stream_roundtrip (toFile fromFile : Func) (xs : List PyVal)
    (pre extC : List Char) (ndigits : Nat)
    (hext : ∀ c cs, extC = c :: cs → c.isDigit = false)
    (hdist : xs.Nodup)
    (hrt : ∀ x ∈ xs, ∃ y, toFile x = .ok y ∧ fromFile y = .ok x) :
    ∃ files, dump_stream_to_dir toFile xs pre extC ndigits = .ok files ∧
      ∀ listing, listing.Perm (files.map Prod.fst) →
        load_stream_from_dir fromFile listing files pre extC = .ok xs := by
  obtain ⟨files, hdump, hmap, hfa⟩ :=
    dumpDirAux_ok toFile fromFile pre extC ndigits xs 0 hrt
  have hmap0 : files.map Prod.fst = (List.range xs.length).map
      (fun j => streamFileName pre (rjustZeros ndigits (renderNat j)) extC) := by
    rw [hmap]
    apply List.map_congr_left
    intro j _
    rw [Nat.zero_add]
  have hFinj : Function.Injective
      (fun j => streamFileName pre (rjustZeros ndigits (renderNat j)) extC) := by
    intro j k hjk
    simp only [streamFileName] at hjk
    have h1 := List.append_cancel_right hjk
    have h2 := List.append_cancel_left h1
    have := congrArg parseNat h2
    rwa [parseNat_padded_renderNat, parseNat_padded_renderNat] at this
  have hnames : (files.map Prod.fst).Nodup := by
    rw [hmap0]
    exact (List.nodup_range xs.length).map hFinj
  refine ⟨files, hdump, ?_⟩
  intro listing hperm
  have hms : (listing.filterMap fun name =>
      (matchIndexedName pre extC name).map fun k => (k, name)).Perm
      ((List.range xs.length).map fun j =>
        (rjustZeros ndigits (renderNat j),
         streamFileName pre (rjustZeros ndigits (renderNat j)) extC)) := by
    have h1 := hperm.filterMap
      (fun name => (matchIndexedName pre extC name).map fun k => (k, name))
    rw [hmap0, filterMap_map_all_some (List.range xs.length)
      (fun j => streamFileName pre (rjustZeros ndigits (renderNat j)) extC)
      (fun name => (matchIndexedName pre extC name).map fun k => (k, name))
      (fun j => (rjustZeros ndigits (renderNat j),
        streamFileName pre (rjustZeros ndigits (renderNat j)) extC))
      ?_] at h1
    · exact h1
    · intro j _
      simp only
      rw [matchIndexedName_streamFileName pre extC _
        (rjustZeros_renderNat_ne_nil ndigits j)
        (rjustZeros_renderNat_digits ndigits j) hext]
      rfl
  have hfs : ((listing.filterMap fun name =>
      (matchIndexedName pre extC name).map fun k => (k, name)).map
        fun kv => (parseNat kv.1, kv.2)).Perm
      ((List.range xs.length).map fun j =>
        (j, streamFileName pre (rjustZeros ndigits (renderNat j)) extC)) := by
    have h2 := hms.map (fun kv : List Char × List Char => (parseNat kv.1, kv.2))
    rw [List.map_map] at h2
    have h3 : ((List.range xs.length).map
        ((fun kv : List Char × List Char => (parseNat kv.1, kv.2)) ∘
          fun j => (rjustZeros ndigits (renderNat j),
            streamFileName pre (rjustZeros ndigits (renderNat j)) extC))) =
        ((List.range xs.length).map fun j =>
          (j, streamFileName pre (rjustZeros ndigits (renderNat j)) extC)) := by
      apply List.map_congr_left
      intro j _
      simp only [Function.comp]
      rw [parseNat_padded_renderNat]
    rw [h3] at h2
    exact h2
  have hL : ((List.range xs.length).map fun j =>
      (j, streamFileName pre (rjustZeros ndigits (renderNat j)) extC)).Pairwise
      (fun a b => a.1 < b.1) := by
    rw [List.pairwise_map]
    exact List.pairwise_lt_range xs.length
  have hsort := insertionSort_perm_of_strict_sorted _ _ hfs hL
  show loadDirAux fromFile files
    (List.insertionSort (fun a b => a.1 ≤ b.1)
      ((listing.filterMap fun name =>
        (matchIndexedName pre extC name).map fun k => (k, name)).map
          fun kv => (parseNat kv.1, kv.2))) = .ok xs
  rw [hsort]
  apply loadDirAux_along fromFile files _ files xs
  · rw [List.map_map, hmap0]
    rfl
  · exact hfa
  · exact dirLookup_self_of_nodup files hnames

/-- **C7** witness: three objects dumped with prefix `"p"`, extension
`".j"`, and the directory listed in reversed order. -/
theorem dir_stream_roundtrip_witness :
    ∃ files, dump_stream_to_dir (fun v => .ok v) [.obj 1, .obj 2, .obj 3]
        ['p'] ['.', 'j'] 6 = .ok files ∧
      load_stream_from_dir (fun v => .ok v) (files.map Prod.fst).reverse files
        ['p'] ['.', 'j'] = .ok [.obj 1, .obj 2, .obj 3] := by
  obtain ⟨files, hdump, hload⟩ := dir_stream_roundtrip (fun v => .ok v) (fun v => .ok v)
    [.obj 1, .obj 2, .obj 3] ['p'] ['.', 'j'] 6
    (fun c cs h => by injection h with h1 h2; subst h1; rfl)
    (by decide)
    (fun x _ => ⟨x, rfl, rfl⟩)
  exact ⟨files, hdump, hload _ (List.reverse_perm _)⟩
